import Mathlib

/-!
Verification of the secure QR decoder (`src/lib/secure-qr-decoder.ts`).

The decoder is embedded shallowly: JavaScript strings become `List Char`
(the payload is Latin-1, one char per byte), byte buffers become
`List Nat`, JavaScript `Date` values become their millisecond timestamps
(`Int`, local time modelled as UTC), and fallible operations return
`Except`/`Option`.  JavaScript quirks that the source relies on are
modelled explicitly: `Array.prototype.slice` index clamping, `parseInt`
prefix parsing, `BigInt(string)` literal syntax, `Uint8Array` ToUint8
coercion, and out-of-range list indexing yielding `undefined` (here
`Option.none`).
-/

namespace SecureQRDecoder

/-- JavaScript strings are modelled as lists of characters. -/
abbrev JStr := List Char

/-! ## JavaScript string and number primitives -/

/-- The WhiteSpace/LineTerminator set recognised by `String.prototype.trim`
and by `parseInt`; only code points below 256 can occur in Latin-1 decoded
tokens, but the full set is kept. -/
def jsIsWhitespace (c : Char) : Bool :=
  decide (c.toNat ∈ [9, 10, 11, 12, 13, 32, 160, 0x1680, 0x2000, 0x2001, 0x2002,
    0x2003, 0x2004, 0x2005, 0x2006, 0x2007, 0x2008, 0x2009, 0x200A, 0x2028,
    0x2029, 0x202F, 0x205F, 0x3000, 0xFEFF])

/-- Model of `String.prototype.trim`: strip leading and trailing whitespace. -/
def jsTrim (s : JStr) : JStr :=
  ((s.dropWhile jsIsWhitespace).reverse.dropWhile jsIsWhitespace).reverse

/-- Decimal digit test (`0`-`9`). -/
def isDigitChar (c : Char) : Bool :=
  decide (48 ≤ c.toNat ∧ c.toNat ≤ 57)

/-- Value of a decimal digit string, most significant first. -/
def digitsVal (l : JStr) : Nat :=
  l.foldl (fun a c => a * 10 + (c.toNat - 48)) 0

/-- Model of `Number.parseInt(s, 10)`: skip whitespace, optional sign, then the
longest decimal-digit prefix; `none` models `NaN`. -/
def jsParseIntDec (s : JStr) : Option Int :=
  let s1 := s.dropWhile jsIsWhitespace
  match s1 with
  | '-' :: rest =>
      let ds := rest.takeWhile isDigitChar
      if ds.isEmpty then none else some (-(digitsVal ds : Int))
  | '+' :: rest =>
      let ds := rest.takeWhile isDigitChar
      if ds.isEmpty then none else some ((digitsVal ds : Int))
  | _ =>
      let ds := s1.takeWhile isDigitChar
      if ds.isEmpty then none else some ((digitsVal ds : Int))

/-- Hexadecimal digit test. -/
def isHexDigitChar (c : Char) : Bool :=
  decide ((48 ≤ c.toNat ∧ c.toNat ≤ 57) ∨ (97 ≤ c.toNat ∧ c.toNat ≤ 102) ∨
    (65 ≤ c.toNat ∧ c.toNat ≤ 70))

/-- Value of a hexadecimal digit character (0 for non-digits). -/
def hexDigitVal (c : Char) : Nat :=
  if 48 ≤ c.toNat ∧ c.toNat ≤ 57 then c.toNat - 48
  else if 97 ≤ c.toNat ∧ c.toNat ≤ 102 then c.toNat - 87
  else if 65 ≤ c.toNat ∧ c.toNat ≤ 70 then c.toNat - 55
  else 0

/-- Value of a hexadecimal digit string, most significant first. -/
def hexVal (l : JStr) : Nat :=
  l.foldl (fun a c => a * 16 + hexDigitVal c) 0

/-- Model of `Number.parseInt(s, 16)` restricted to the shapes produced by
`BigInt.prototype.toString(16)` (no `0x` prefix handling is needed because
the hex string contains only `0`-`9`, `a`-`f` and possibly `-`). -/
def jsParseIntHex (s : JStr) : Option Int :=
  let s1 := s.dropWhile jsIsWhitespace
  match s1 with
  | '-' :: rest =>
      let ds := rest.takeWhile isHexDigitChar
      if ds.isEmpty then none else some (-(hexVal ds : Int))
  | '+' :: rest =>
      let ds := rest.takeWhile isHexDigitChar
      if ds.isEmpty then none else some ((hexVal ds : Int))
  | _ =>
      let ds := s1.takeWhile isHexDigitChar
      if ds.isEmpty then none else some ((hexVal ds : Int))

/-- The `ToUint8` coercion of a `parseInt` result as performed by a `Uint8Array` element
store: `NaN` becomes `0`, other integers are reduced modulo 256. -/
def jsToUint8 : Option Int → Nat
  | none => 0
  | some i => (i.emod 256).toNat

/-! ## Byte codec: `convertBase10ToByteArray` -/

/-- Parse a nonempty all-digit string in the given base; `none` otherwise. -/
def parseAllDigits (isDig : Char → Bool) (base : Nat) (dval : Char → Nat) (l : JStr) :
    Option Nat :=
  if l.isEmpty then none
  else if l.all isDig then some (l.foldl (fun a c => a * base + dval c) 0) else none

/-- Binary digit test. -/
def isBinDigitChar (c : Char) : Bool := decide (c.toNat = 48 ∨ c.toNat = 49)

/-- Octal digit test. -/
def isOctDigitChar (c : Char) : Bool := decide (48 ≤ c.toNat ∧ c.toNat ≤ 55)

/-- Value of a decimal digit character. -/
def decDigitVal (c : Char) : Nat := c.toNat - 48

/-- Signed decimal form of a `StringIntegerLiteral` (sign allowed only
without a radix prefix). -/
def signedDecimalBig (l : JStr) : Option Int :=
  match l with
  | '-' :: rest => (parseAllDigits isDigitChar 10 decDigitVal rest).map (fun n => -(n : Int))
  | '+' :: rest => (parseAllDigits isDigitChar 10 decDigitVal rest).map (fun n => (n : Int))
  | _ => (parseAllDigits isDigitChar 10 decDigitVal l).map (fun n => (n : Int))

/-- Model of `BigInt(string)`: trim whitespace; an empty remainder is `0`; a
`0x`/`0o`/`0b` prefix selects that radix (sign disallowed); otherwise an
optionally signed nonempty decimal digit string; anything else throws
(`none`). -/
def jsBigIntOfString (s : JStr) : Option Int :=
  let t := jsTrim s
  match t with
  | [] => some 0
  | [c] => signedDecimalBig [c]
  | c0 :: c1 :: rest =>
      if c0 == '0' && (c1 == 'x' || c1 == 'X') then
        (parseAllDigits isHexDigitChar 16 hexDigitVal rest).map (fun n => (n : Int))
      else if c0 == '0' && (c1 == 'o' || c1 == 'O') then
        (parseAllDigits isOctDigitChar 8 decDigitVal rest).map (fun n => (n : Int))
      else if c0 == '0' && (c1 == 'b' || c1 == 'B') then
        (parseAllDigits isBinDigitChar 2 decDigitVal rest).map (fun n => (n : Int))
      else signedDecimalBig (c0 :: c1 :: rest)

/-- Lowercase hexadecimal digit character for a value below 16. -/
def hexDigitChar (k : Nat) : Char :=
  Char.ofNat (if k < 10 then 48 + k else 87 + k)

/-- Fuel-driven hex rendering; the fuel only bounds the recursion depth
(any fuel at least the value itself is enough). -/
def natHexCharsAux : Nat → Nat → JStr
  | 0, n => [hexDigitChar n]
  | fuel + 1, n =>
      if n < 16 then [hexDigitChar n]
      else natHexCharsAux fuel (n / 16) ++ [hexDigitChar (n % 16)]

/-- Model of `n.toString(16)` for a natural number: minimal big-endian hex digits. -/
def natHexChars (n : Nat) : JStr := natHexCharsAux n n

/-- Model of `BigInt.prototype.toString(16)`: a leading `-` for negative values. -/
def jsBigIntToHexChars (n : Int) : JStr :=
  if n < 0 then '-' :: natHexChars n.natAbs else natHexChars n.toNat

/-- The hex-pair loop of `convertBase10ToByteArray`: each two characters
are fed to `parseInt(_, 16)` and stored into a `Uint8Array` slot; a
trailing odd character is dropped (the `Uint8Array` length is floored). -/
def parseHexPairs : JStr → List Nat
  | c1 :: c2 :: rest => jsToUint8 (jsParseIntHex [c1, c2]) :: parseHexPairs rest
  | _ => []

/-- The even-length padding step: `if (hexString.length % 2 !== 0)
hexString = "0" + hexString`. -/
def padEvenHex (l : JStr) : JStr :=
  if l.length % 2 ≠ 0 then '0' :: l else l

/-- The `convertBase10ToByteArray` method (decoder lines 287-317): `BigInt` the input,
render as hex, left-pad to even length, then convert hex pairs to bytes.
The only throwing step is `BigInt(base10String)`. -/
def convertBase10ToByteArray (base10String : JStr) : Except JStr (List Nat) :=
  match jsBigIntOfString base10String with
  | none => Except.error ("Failed to convert base10 to byte array".toList)
  | some bigInt =>
      Except.ok (parseHexPairs (padEvenHex (jsBigIntToHexChars bigInt)))

/-- Fuel-driven big-endian base-256 digits (fuel bounds recursion depth). -/
def natToBEBytesAux : Nat → Nat → List Nat
  | 0, n => [n]
  | fuel + 1, n =>
      if n < 256 then [n] else natToBEBytesAux fuel (n / 256) ++ [n % 256]

/-- Minimal big-endian base-256 representation of a natural number
(`[0]` for zero), used to state what the codec should produce. -/
def natToBEBytes (n : Nat) : List Nat := natToBEBytesAux n n

/-- The spec's "valid non-negative integer literal": a nonempty string of
decimal digits. -/
def isNonNegIntegerLiteral (s : JStr) : Bool :=
  !s.isEmpty && s.all isDigitChar

/-! ## Date model

JavaScript `Date` values are modelled by their timestamp in milliseconds
(an `Int`); the local time zone is taken to be UTC.  Civil-date
conversions follow the proleptic Gregorian calendar, matching
ECMAScript's `MakeDay`/`YearFromTime` for the in-range dates the decoder
handles. -/

def msPerDay : Int := 86400000

/-- Day number (days since 1970-01-01) of a timestamp. -/
def jsDayNumber (t : Int) : Int := Int.fdiv t msPerDay

/-- Days since 1970-01-01 of a civil date (month 1-12; the day may exceed
the month length, acting as an offset, which is how `MakeDay` composes
with arbitrary `date` arguments). -/
def daysFromCivil (y m d : Int) : Int :=
  let y' := y - (if m ≤ 2 then 1 else 0)
  let era := Int.fdiv y' 400
  let yoe := y' - era * 400
  let mp := (m + 9).emod 12
  let doy := (153 * mp + 2) / 5 + d - 1
  let doe := yoe * 365 + yoe / 4 - yoe / 100 + doy
  era * 146097 + doe - 719468

/-- Civil date `(year, month 1-12, day 1-31)` of a day number. -/
def civilFromDays (z0 : Int) : Int × Int × Int :=
  let z := z0 + 719468
  let era := Int.fdiv z 146097
  let doe := z - era * 146097
  let yoe := (doe - doe / 1460 + doe / 36524 - doe / 146096) / 365
  let y := yoe + era * 400
  let doy := doe - (365 * yoe + yoe / 4 - yoe / 100)
  let mp := (5 * doy + 2) / 153
  let d := doy - (153 * mp + 2) / 5 + 1
  let m := mp + (if mp < 10 then 3 else -9)
  (y + (if m ≤ 2 then 1 else 0), m, d)

/-- Model of `Date.prototype.getFullYear`. -/
def jsGetFullYear (t : Int) : Int := (civilFromDays (jsDayNumber t)).1

/-- Model of `Date.prototype.getMonth` (0-based). -/
def jsGetMonth (t : Int) : Int := (civilFromDays (jsDayNumber t)).2.1 - 1

/-- Model of `Date.prototype.getDate` (1-based). -/
def jsGetDate (t : Int) : Int := (civilFromDays (jsDayNumber t)).2.2

/-- Model of `new Date(y, m, d)` at local midnight: the 0-based month argument is
normalised into the year, and day overflow rolls over. -/
def jsMakeTimestamp (y m d : Int) : Int :=
  let ym := y + Int.fdiv m 12
  let m' := Int.emod m 12
  (daysFromCivil ym (m' + 1) d) * msPerDay

/-- Model of `d.setFullYear(y)`: keep month, day-of-month and time-of-day. -/
def jsSetFullYear (t y : Int) : Int :=
  jsMakeTimestamp y (jsGetMonth t) (jsGetDate t) + Int.emod t msPerDay

/-- Model of `String.prototype.split` with a one-character separator. -/
def jsSplitAux (sep : Char) : JStr → JStr → List JStr
  | [], acc => [acc.reverse]
  | c :: rest, acc =>
      if c == sep then acc.reverse :: jsSplitAux sep rest []
      else jsSplitAux sep rest (c :: acc)

def jsSplit (s : JStr) (sep : Char) : List JStr := jsSplitAux sep s []

/-! ## `parseDateOfBirth` and `calculateAge` -/

/-- The format-dispatch part of `parseDateOfBirth` (decoder lines 528-589):
`DD/MM/YYYY`, then `DD-MM-YYYY` / `YYYY-MM-DD` (first part of length 4),
then the generic `new Date(string)` parse.  The engine-defined generic
parse is a parameter `directParse`; `none` models an invalid date. -/
def parseDobCandidate (directParse : JStr → Option Int) (cleanDob : JStr) : Option Int :=
  if cleanDob.contains '/' then
    let parts := jsSplit cleanDob '/'
    if parts.length ≠ 3 then none
    else
      match jsParseIntDec (parts.getD 0 []), jsParseIntDec (parts.getD 1 []),
          jsParseIntDec (parts.getD 2 []) with
      | some day, some month, some year => some (jsMakeTimestamp year (month - 1) day)
      | _, _, _ => none
  else if cleanDob.contains '-' then
    let parts := jsSplit cleanDob '-'
    if parts.length ≠ 3 then none
    else
      let dmy :=
        if (parts.getD 0 []).length = 4 then
          (parts.getD 2 [], parts.getD 1 [], parts.getD 0 [])
        else (parts.getD 0 [], parts.getD 1 [], parts.getD 2 [])
      match jsParseIntDec dmy.1, jsParseIntDec dmy.2.1, jsParseIntDec dmy.2.2 with
      | some day, some month, some year => some (jsMakeTimestamp year (month - 1) day)
      | _, _, _ => none
  else directParse cleanDob

/-- The `parseDateOfBirth` method (decoder lines 528-618): trim, parse by format,
then reject dates after `now` and dates before `now` moved back 120
years.  `now` is the `new Date()` instant. -/
def parseDateOfBirth (directParse : JStr → Option Int) (now : Int) (dobString : JStr) :
    Option Int :=
  let cleanDob := jsTrim dobString
  match parseDobCandidate directParse cleanDob with
  | none => none
  | some dob =>
      if dob > now then none
      else if dob < jsSetFullYear now (jsGetFullYear now - 120) then none
      else some dob

/-- The `calculateAge` method (decoder lines 510-521); `now` is the `new Date()`
instant taken inside the source function. -/
def calculateAge (now : Int) (dob : Int) : Int :=
  let age := jsGetFullYear now - jsGetFullYear dob
  let monthDiff := jsGetMonth now - jsGetMonth dob
  if monthDiff < 0 ∨ (monthDiff = 0 ∧ jsGetDate now < jsGetDate dob) then age - 1 else age

/-! ## Field parser: `extractDataFields` -/

/-- The `bytesToString` method (decoder lines 625-631): `String.fromCharCode` per
byte, i.e. Latin-1 decoding. -/
def bytesToString (bytes : List Nat) : JStr :=
  bytes.map (fun b => Char.ofNat b)

/-- Left-pad a char list with `'0'` to length 2 (`padStart(2, "0")`). -/
def padStart2 (l : JStr) : JStr :=
  List.replicate (2 - l.length) '0' ++ l

/-- The `bytesToHexString` method (decoder lines 638-642). -/
def bytesToHexString (bytes : List Nat) : JStr :=
  (bytes.map (fun b => padStart2 (natHexChars b))).flatten

/-- Model of `Uint8Array.prototype.slice(s, e)` with JavaScript index clamping:
negative indices count from the end, and both ends are clamped to
`[0, length]`. -/
def jsSlice (l : List Nat) (s e : Int) : List Nat :=
  let n : Int := l.length
  let s' : Int := if s < 0 then max (n + s) 0 else min s n
  let e' : Int := if e < 0 then max (n + e) 0 else min e n
  (l.take e'.toNat).drop s'.toNat

/-- The first-pass tokenizer loop of `extractDataFields` (decoder lines
352-373): split on delimiter byte 255, stopping after 16 tokens (`fuel`
counts how many further tokens may be read after the current one; the
source breaks once `fieldValues.length > 15`).  A trailing delimiter does
not produce a final empty token because the loop condition is
`index < byteArray.length`. -/
def splitFields : Nat → List Nat → List JStr
  | 0, bs =>
      if bs.isEmpty then []
      else [bytesToString (bs.takeWhile (fun b => b != 255))]
  | fuel + 1, bs =>
      if bs.isEmpty then []
      else
        bytesToString (bs.takeWhile (fun b => b != 255)) ::
          (match bs.dropWhile (fun b => b != 255) with
           | [] => []
           | _ :: rest => splitFields fuel rest)

/-- The in-place shift `fieldValues[i] := fieldValues[i+1]` for
`i ∈ [1, n-2]` (decoder lines 392-394): the head is untouched and the
last element is duplicated into the second-to-last slot. -/
def jsShiftLeft : List JStr → List JStr
  | f0 :: f1 :: rest => f0 :: (rest ++ [rest.getLastD f1])
  | l => l

/-- Outcome of the anomaly-correction step. -/
structure ParsedFields where
  fieldShift : Bool
  emailMobilePresent : Int
  values : List JStr
deriving Repr, DecidableEq

/-- The special-case check of `extractDataFields` (decoder lines 377-398):
if the trimmed first token is not parseable as an integer and the second
token is literally `"3"`, force the indicator to 3 and shift the tokens;
otherwise the indicator is the parsed first token (0 when `NaN`). -/
def applyAnomalyCorrection (fieldValues : List JStr) : ParsedFields :=
  let firstFieldValue := jsTrim (fieldValues.headD [])
  let parsedFirstValue := jsParseIntDec firstFieldValue
  let secondFieldValue := fieldValues[1]?
  if parsedFirstValue.isNone && (secondFieldValue == some ['3']) then
    ⟨true, 3, jsShiftLeft fieldValues⟩
  else
    ⟨false, parsedFirstValue.getD 0, fieldValues⟩

/-- Binary-tail extraction (decoder lines 434-480): returns
`(mobileHash, emailHash, photo)` according to the indicator branches. -/
def binarySegments (byteArray : List Nat) (currentIndex : Nat) (emailMobilePresent : Int)
    (fieldShift : Bool) : Option JStr × Option JStr × List Nat :=
  let signatureStartIndex : Int := (byteArray.length : Int) - 256
  if emailMobilePresent == 3 || fieldShift then
    let mobileStartIndex := signatureStartIndex - 32
    let emailStartIndex := mobileStartIndex - 32
    (some (bytesToHexString (jsSlice byteArray mobileStartIndex (mobileStartIndex + 32))),
     some (bytesToHexString (jsSlice byteArray emailStartIndex (emailStartIndex + 32))),
     jsSlice byteArray (currentIndex : Int) emailStartIndex)
  else if emailMobilePresent == 2 then
    let mobileStartIndex := signatureStartIndex - 32
    (some (bytesToHexString (jsSlice byteArray mobileStartIndex (mobileStartIndex + 32))),
     none,
     jsSlice byteArray (currentIndex : Int) mobileStartIndex)
  else if emailMobilePresent == 1 then
    let emailStartIndex := signatureStartIndex - 32
    (none,
     some (bytesToHexString (jsSlice byteArray emailStartIndex (emailStartIndex + 32))),
     jsSlice byteArray (currentIndex : Int) emailStartIndex)
  else
    (none, none, jsSlice byteArray (currentIndex : Int) signatureStartIndex)

/-- The structured record assembled by `extractDataFields`.  Fields read
from out-of-range token indices are JavaScript `undefined`, modelled as
`none`; `vtc`, the hashes and the derived age fields are present only
when the source sets them. -/
structure IdentityRecord where
  emailMobilePresent : Int
  referenceId : Option JStr
  name : Option JStr
  dateOfBirth : Option JStr
  gender : Option JStr
  careOf : Option JStr
  district : Option JStr
  landmark : Option JStr
  house : Option JStr
  location : Option JStr
  pinCode : Option JStr
  postOffice : Option JStr
  state : Option JStr
  street : Option JStr
  subDistrict : Option JStr
  vtc : Option JStr
  mobileHash : Option JStr
  emailHash : Option JStr
  photo : List Nat
  signature : List Nat
  age : Option Int
  isAdult : Option Bool
deriving Repr, DecidableEq

/-- Record assembly for a nonempty token list (decoder lines 377-498). -/
def buildRecord (now : Int) (directParse : JStr → Option Int) (byteArray : List Nat)
    (fieldValues : List JStr) : IdentityRecord :=
  let A := applyAnomalyCorrection fieldValues
  let fv := A.values
  let currentIndex : Nat := fv.foldl (fun acc s => acc + s.length + 1) 0
  let seg := binarySegments byteArray currentIndex A.emailMobilePresent A.fieldShift
  let signature := jsSlice byteArray ((byteArray.length : Int) - 256) byteArray.length
  let dateOfBirth := fv[3]?
  let age : Option Int :=
    match dateOfBirth with
    | some s =>
        if s.isEmpty then none
        else (parseDateOfBirth directParse now s).map (calculateAge now)
    | none => none
  { emailMobilePresent := A.emailMobilePresent
    referenceId := fv[1]?
    name := fv[2]?
    dateOfBirth := dateOfBirth
    gender := fv[4]?
    careOf := fv[5]?
    district := fv[6]?
    landmark := fv[7]?
    house := fv[8]?
    location := fv[9]?
    pinCode := fv[10]?
    postOffice := fv[11]?
    state := fv[12]?
    street := fv[13]?
    subDistrict := fv[14]?
    vtc := if fv.length > 15 then fv[15]? else none
    mobileHash := seg.1
    emailHash := seg.2.1
    photo := seg.2.2
    signature := signature
    age := age
    isAdult := age.map (fun a => decide (a ≥ 18)) }

/-- The `extractDataFields` method (decoder lines 341-503).  With zero recoverable
tokens the source evaluates `fieldValues[0].trim()` on `undefined`, whose
`TypeError` is caught and rethrown (`Failed to extract data fields`); in
every other case a record is returned. -/
def extractDataFields (now : Int) (directParse : JStr → Option Int) (byteArray : List Nat) :
    Except JStr IdentityRecord :=
  let fieldValues := splitFields 15 byteArray
  if fieldValues.isEmpty then
    Except.error ("Failed to extract data fields".toList)
  else
    Except.ok (buildRecord now directParse byteArray fieldValues)

/-- A default record, used only to make `recOf` total. -/
def emptyIdentityRecord : IdentityRecord :=
  ⟨0, none, none, none, none, none, none, none, none, none, none, none, none,
   none, none, none, none, none, [], [], none, none⟩

/-- The record held by a successful parse result. -/
def recOf (e : Except JStr IdentityRecord) : IdentityRecord :=
  match e with
  | Except.ok r => r
  | Except.error _ => emptyIdentityRecord

/-- Whether an `Except` result is a success. -/
def isOkB {ε α : Type} (e : Except ε α) : Bool :=
  match e with
  | Except.ok _ => true
  | Except.error _ => false

/-- The delimiter-terminated text region built from a token list: each
token is followed by one `0xFF` delimiter byte. -/
def textRegion (ts : List (List Nat)) : List Nat :=
  (ts.map (fun t => t ++ [255])).flatten

/-- Number of trailing hash bytes implied by an indicator value. -/
def hashBytesFor (v : Int) : Nat :=
  if v = 3 then 64 else if v = 2 then 32 else if v = 1 then 32 else 0

/-- Equality of parse results is decidable (used to evaluate concrete
runs of the decoder in witnesses). -/
instance {ε α : Type} [DecidableEq ε] [DecidableEq α] : DecidableEq (Except ε α) := fun x y =>
  match x, y with
  | Except.ok a, Except.ok b =>
      if h : a = b then Decidable.isTrue (by rw [h])
      else Decidable.isFalse (by intro hc; injection hc; contradiction)
  | Except.error a, Except.error b =>
      if h : a = b then Decidable.isTrue (by rw [h])
      else Decidable.isFalse (by intro hc; injection hc; contradiction)
  | Except.ok _, Except.error _ => Decidable.isFalse (by intro hc; cases hc)
  | Except.error _, Except.ok _ => Decidable.isFalse (by intro hc; cases hc)

set_option maxRecDepth 100000

/-- A generic-parse stub for concrete runs: `new Date(string)` never
succeeds (the structured formats do not reach it). -/
def noParse : JStr → Option Int := fun _ => none

/-! ## Basic lemmas about the tokenizer and the parse pipeline -/

theorem splitFields_nil (fuel : Nat) : splitFields fuel [] = [] := by
  cases fuel <;> rfl

theorem splitFields_ne_nil (fuel : Nat) (b : Nat) (bs : List Nat) :
    splitFields fuel (b :: bs) ≠ [] := by
  cases fuel <;> simp [splitFields]

theorem splitFields_eq_nil_iff (fuel : Nat) (bs : List Nat) :
    splitFields fuel bs = [] ↔ bs = [] := by
  cases bs with
  | nil => simp [splitFields_nil]
  | cons b t => simp [splitFields_ne_nil]

theorem extract_ok (now : Int) (dp : JStr → Option Int) (bs : List Nat) (h : bs ≠ []) :
    extractDataFields now dp bs =
      Except.ok (buildRecord now dp bs (splitFields 15 bs)) := by
  have hne : splitFields 15 bs ≠ [] := by
    intro hc
    exact h ((splitFields_eq_nil_iff 15 bs).mp hc)
  have hEmpty : (splitFields 15 bs).isEmpty = false := by
    cases hsf : splitFields 15 bs with
    | nil => exact absurd hsf hne
    | cons a l => rfl
  simp [extractDataFields, hEmpty]

theorem recOf_ok (r : IdentityRecord) : recOf (Except.ok r) = r := rfl

theorem isOkB_ok {ε α : Type} (a : α) : isOkB (Except.ok (ε := ε) a) = true := rfl

/-! ## Claims about error behaviour of the field parser (C5, C6) -/

/-- C6 (amended): the field parser fails (with the caught-and-rethrown
`TypeError` of `fieldValues[0].trim()`) exactly when zero tokens are
recoverable, i.e. exactly on the empty payload; for every nonempty
payload — including one-token payloads — a record is returned. -/
theorem extract_error_iff_empty_payload (now : Int) (dp : JStr → Option Int) (bs : List Nat) :
    isOkB (extractDataFields now dp bs) = false ↔ bs = [] := by
  constructor
  · intro h
    by_contra hne
    rw [extract_ok now dp bs hne] at h
    simp [isOkB] at h
  · intro h
    subst h
    rfl

/-- C6 counterexample: a one-token payload (fewer than 2 recoverable
tokens) does not fail — `extractDataFields` returns a record, so no
`FieldCountError`-style fatal error exists for the one-token case. -/
theorem one_token_payload_returns_record_cex :
    (splitFields 15 [65]).length = 1 ∧
      isOkB (extractDataFields 0 noParse [65]) = true ∧
      (recOf (extractDataFields 0 noParse [65])).referenceId = none := by
  decide

/-- C5 (amended): the field parser performs no minimum-length validation.
A payload shorter than the 256 signature bytes (hence shorter than
256 plus any applicable hash bytes) still yields a record; the binary
slices are merely clamped. -/
theorem short_payload_returns_record (now : Int) (dp : JStr → Option Int) (bs : List Nat)
    (hne : bs ≠ []) (_hshort : bs.length < 256) :
    isOkB (extractDataFields now dp bs) = true := by
  rw [extract_ok now dp bs hne]
  rfl

/-- C5 witness: a concrete 1-byte payload is accepted. -/
theorem short_payload_returns_record_witness :
    ([42] : List Nat) ≠ [] ∧ ([42] : List Nat).length < 256 ∧
      isOkB (extractDataFields 0 noParse [42]) = true :=
  ⟨by decide, by decide, short_payload_returns_record 0 noParse [42] (by decide) (by decide)⟩

/-- C5 counterexample: the payload `[50]` (text `"2"`, so the indicator
demands 256 + 32 trailing bytes) is far too short, yet the parser returns
a record whose `signature` is the clamped 1-byte slice — no
`SignatureBoundsError`-style failure occurs. -/
theorem short_payload_no_bounds_error_cex :
    isOkB (extractDataFields 0 noParse [50]) = true ∧
      (recOf (extractDataFields 0 noParse [50])).emailMobilePresent = 2 ∧
      (recOf (extractDataFields 0 noParse [50])).signature = [50] ∧
      (recOf (extractDataFields 0 noParse [50])).signature.length ≠ 256 := by
  decide

/-! ## Claims about the date/age deriver (C8, C9) -/

/-- C8: every date `parseDateOfBirth` returns lies between the instant
120 years before `now` (`setFullYear(year - 120)`) and `now` itself; in
particular every strictly-future date and every date more than 120 years
old is rejected (returns `none`). -/
theorem parseDateOfBirth_range (dp : JStr → Option Int) (now : Int) (s : JStr) (d : Int)
    (h : parseDateOfBirth dp now s = some d) :
    d ≤ now ∧ jsSetFullYear now (jsGetFullYear now - 120) ≤ d := by
  simp only [parseDateOfBirth] at h
  cases hc : parseDobCandidate dp (jsTrim s) with
  | none => rw [hc] at h; exact absurd h (by simp)
  | some dob =>
      rw [hc] at h
      by_cases h1 : dob > now
      · simp [h1] at h
      · by_cases h2 : dob < jsSetFullYear now (jsGetFullYear now - 120)
        · simp [h1, h2] at h
        · simp [h1, h2] at h
          subst h
          omega

/-- C8 witness: `15/06/2000` parsed on 2024-06-15 is returned and lies in
the admissible range. -/
theorem parseDateOfBirth_range_witness :
    parseDateOfBirth noParse (jsMakeTimestamp 2024 5 15) ("15/06/2000".toList)
        = some (jsMakeTimestamp 2000 5 15) ∧
      jsMakeTimestamp 2000 5 15 ≤ jsMakeTimestamp 2024 5 15 ∧
      jsSetFullYear (jsMakeTimestamp 2024 5 15) (jsGetFullYear (jsMakeTimestamp 2024 5 15) - 120)
        ≤ jsMakeTimestamp 2000 5 15 := by
  have h : parseDateOfBirth noParse (jsMakeTimestamp 2024 5 15) ("15/06/2000".toList)
      = some (jsMakeTimestamp 2000 5 15) := by decide
  have hr := parseDateOfBirth_range noParse (jsMakeTimestamp 2024 5 15)
    ("15/06/2000".toList) (jsMakeTimestamp 2000 5 15) h
  exact ⟨h, hr.1, hr.2⟩

/-- C9: `calculateAge` is the year difference, decremented by one exactly
when `now`'s (month, day) pair lexicographically precedes `dob`'s; and the
spec's concrete instances: for dob 2000-06-15 the result is 23 on
2024-06-14 and 24 on 2024-06-15 and on 2024-12-31. -/
theorem calculateAge_spec :
    (∀ now dob : Int,
      calculateAge now dob =
        jsGetFullYear now - jsGetFullYear dob -
          (if jsGetMonth now < jsGetMonth dob ∨
              (jsGetMonth now = jsGetMonth dob ∧ jsGetDate now < jsGetDate dob)
            then 1 else 0)) ∧
    calculateAge (jsMakeTimestamp 2024 5 14) (jsMakeTimestamp 2000 5 15) = 23 ∧
    calculateAge (jsMakeTimestamp 2024 5 15) (jsMakeTimestamp 2000 5 15) = 24 ∧
    calculateAge (jsMakeTimestamp 2024 11 31) (jsMakeTimestamp 2000 5 15) = 24 := by
  refine ⟨?_, by decide, by decide, by decide⟩
  intro now dob
  simp only [calculateAge]
  split_ifs with h1 h2 <;> omega

/-! ## List and `parseInt` helper lemmas -/

theorem takeWhile_append_cons {α : Type} (p : α → Bool) (d : List α) (c : α) (t : List α)
    (hd : ∀ x ∈ d, p x = true) (hc : p c = false) :
    (d ++ c :: t).takeWhile p = d := by
  induction d with
  | nil => simp [List.takeWhile_cons, hc]
  | cons a d' ih =>
      have ha : p a = true := hd a (by simp)
      simp [List.takeWhile_cons, ha, ih (fun x hx => hd x (by simp [hx]))]

theorem dropWhile_append_cons {α : Type} (p : α → Bool) (d : List α) (c : α) (t : List α)
    (hd : ∀ x ∈ d, p x = true) (hc : p c = false) :
    (d ++ c :: t).dropWhile p = c :: t := by
  induction d with
  | nil => simp [List.dropWhile_cons, hc]
  | cons a d' ih =>
      have ha : p a = true := hd a (by simp)
      simp only [List.cons_append, List.dropWhile_cons, ha]
      exact ih (fun x hx => hd x (by simp [hx]))

theorem digit_not_ws (c : Char) (h : isDigitChar c = true) : jsIsWhitespace c = false := by
  simp only [isDigitChar, decide_eq_true_eq] at h
  simp only [jsIsWhitespace, List.mem_cons, List.not_mem_nil, decide_eq_false_iff_not]
  push_neg
  simp only [not_false_iff, and_true]
  omega

/-- Parsing with `parseInt(_, 10)` of a string that starts with a nonempty run of
decimal digits followed by a non-digit returns the value of that run. -/
theorem jsParseIntDec_digit_run (d : JStr) (tc : Char) (t' : JStr)
    (hd : d ≠ []) (hall : ∀ c ∈ d, isDigitChar c = true) (htc : isDigitChar tc = false) :
    jsParseIntDec (d ++ tc :: t') = some ((digitsVal d : Int)) := by
  obtain ⟨c0, d', rfl⟩ : ∃ c0 d', d = c0 :: d' := by
    cases d with
    | nil => exact absurd rfl hd
    | cons a l => exact ⟨a, l, rfl⟩
  have hc0 : isDigitChar c0 = true := hall c0 (by simp)
  have hs1 : ((c0 :: d') ++ tc :: t').dropWhile jsIsWhitespace = (c0 :: d') ++ tc :: t' := by
    simp [List.dropWhile_cons, digit_not_ws c0 hc0]
  have htw : ((c0 :: d') ++ tc :: t').takeWhile isDigitChar = c0 :: d' :=
    takeWhile_append_cons isDigitChar (c0 :: d') tc t' hall htc
  simp only [jsParseIntDec, hs1]
  have hne : c0 ≠ '-' := by
    intro he
    rw [he] at hc0
    exact absurd hc0 (by decide)
  have hne' : c0 ≠ '+' := by
    intro he
    rw [he] at hc0
    exact absurd hc0 (by decide)
  split
  · next rest heq =>
      rcases (by simpa using heq : c0 = '-' ∧ d' ++ tc :: t' = rest) with ⟨h1, -⟩
      exact absurd h1 hne
  · next rest heq =>
      rcases (by simpa using heq : c0 = '+' ∧ d' ++ tc :: t' = rest) with ⟨h1, -⟩
      exact absurd h1 hne'
  · next =>
      simp only [List.cons_append] at htw
      simp [htw]

/-- The element just past a cons cell's tail is the `getLastD`. -/
theorem getElem?_cons_tail_length {α : Type} (f1 : α) (rest : List α) :
    (f1 :: rest)[rest.length]? = some (rest.getLastD f1) := by
  induction rest generalizing f1 with
  | nil => rfl
  | cons a r ih =>
      simp only [List.length_cons, List.getElem?_cons_succ, List.getLastD_cons]
      exact ih a

/-! ## Claim C4: the anomaly-correction step -/

/-- C4: for token sequences of length at least 2, the anomaly correction
triggers exactly when the (trimmed) first token fails to `parseInt` and
the second token is the literal `"3"`; when it triggers, the indicator is
forced to 3, the head token is untouched, `token[i]` becomes `token[i+1]`
for `i ∈ [1, n-2]`, and the final token keeps its value (so the last
element is duplicated); otherwise the indicator is the parsed first token
(0 when unparseable) and the token list is unchanged. -/
theorem anomaly_correction_spec (fieldValues : List JStr) (hlen : 2 ≤ fieldValues.length) :
    ((applyAnomalyCorrection fieldValues).fieldShift = true ↔
      (jsParseIntDec (jsTrim (fieldValues.headD [])) = none ∧ fieldValues[1]? = some ['3'])) ∧
    ((applyAnomalyCorrection fieldValues).fieldShift = true →
      (applyAnomalyCorrection fieldValues).emailMobilePresent = 3 ∧
      (applyAnomalyCorrection fieldValues).values.length = fieldValues.length ∧
      (applyAnomalyCorrection fieldValues).values[0]? = fieldValues[0]? ∧
      (∀ i, 1 ≤ i → i ≤ fieldValues.length - 2 →
        (applyAnomalyCorrection fieldValues).values[i]? = fieldValues[i + 1]?) ∧
      (applyAnomalyCorrection fieldValues).values[fieldValues.length - 1]?
        = fieldValues[fieldValues.length - 1]?) ∧
    ((applyAnomalyCorrection fieldValues).fieldShift = false →
      (applyAnomalyCorrection fieldValues).emailMobilePresent
          = (jsParseIntDec (jsTrim (fieldValues.headD []))).getD 0 ∧
      (applyAnomalyCorrection fieldValues).values = fieldValues) := by
  obtain ⟨f0, f1, rest, rfl⟩ : ∃ f0 f1 rest, fieldValues = f0 :: f1 :: rest := by
    cases fieldValues with
    | nil => simp at hlen
    | cons a t =>
        cases t with
        | nil => simp at hlen
        | cons b r => exact ⟨a, b, r, rfl⟩
  by_cases hcond : ((jsParseIntDec (jsTrim ((f0 :: f1 :: rest).headD []))).isNone &&
      ((f0 :: f1 :: rest)[1]? == some ['3'])) = true
  · have hA : applyAnomalyCorrection (f0 :: f1 :: rest) =
        ⟨true, 3, jsShiftLeft (f0 :: f1 :: rest)⟩ := by
      simp only [applyAnomalyCorrection, hcond]
      rfl
    rw [hA]
    simp only [Bool.and_eq_true, Option.isNone_iff_eq_none, beq_iff_eq] at hcond
    refine ⟨by simpa using hcond, ?_, ?_⟩
    · intro _
      refine ⟨rfl, ?_, ?_, ?_, ?_⟩
      · simp [jsShiftLeft]
      · simp [jsShiftLeft]
      · intro i h1 h2
        obtain ⟨j, rfl⟩ : ∃ j, i = j + 1 := ⟨i - 1, by omega⟩
        have hj : j < rest.length := by
          simp only [List.length_cons] at h2
          omega
        simp only [jsShiftLeft, List.getElem?_cons_succ]
        rw [List.getElem?_append_left hj]
      · simp only [jsShiftLeft, List.length_cons]
        have hidx : rest.length + 1 + 1 - 1 = rest.length + 1 := by omega
        rw [hidx]
        simp only [List.getElem?_cons_succ]
        have h1 : (rest ++ [rest.getLastD f1])[rest.length]? = some (rest.getLastD f1) := by
          rw [List.getElem?_append_right (by omega)]
          simp
        rw [h1, getElem?_cons_tail_length]
    · intro hfalse
      simp at hfalse
  · have hA : applyAnomalyCorrection (f0 :: f1 :: rest) =
        ⟨false, (jsParseIntDec (jsTrim ((f0 :: f1 :: rest).headD []))).getD 0,
          f0 :: f1 :: rest⟩ := by
      simp only [applyAnomalyCorrection]
      rw [if_neg hcond]
    rw [hA]
    simp only [Bool.and_eq_true, Option.isNone_iff_eq_none, beq_iff_eq] at hcond
    refine ⟨by simpa using hcond, ?_, fun _ => ⟨rfl, rfl⟩⟩
    intro hfalse
    simp at hfalse

/-- C4 witness: at the concrete token list `["a", "3", "x"]` the
correction triggers, the indicator becomes 3, and the slot at index 1
receives the old index-2 token. -/
theorem anomaly_correction_spec_witness :
    2 ≤ ([['a'], ['3'], ['x']] : List JStr).length ∧
      (applyAnomalyCorrection [['a'], ['3'], ['x']]).fieldShift = true ∧
      (applyAnomalyCorrection [['a'], ['3'], ['x']]).emailMobilePresent = 3 ∧
      (applyAnomalyCorrection [['a'], ['3'], ['x']]).values[1]?
        = ([['a'], ['3'], ['x']] : List JStr)[2]? := by
  have h := anomaly_correction_spec [['a'], ['3'], ['x']] (by decide)
  have hshift : (applyAnomalyCorrection [['a'], ['3'], ['x']]).fieldShift = true :=
    h.1.mpr ⟨by decide, by decide⟩
  have hs := h.2.1 hshift
  exact ⟨by decide, hshift, hs.1, hs.2.2.2.1 1 (by decide) (by decide)⟩

/-! ## Claim C10: partially numeric first token -/

/-- C10: when the trimmed first token is a nonempty digit run followed by
a non-digit character, the parser does not shift, the indicator is the
value of the digit prefix, and the named fields are the straight 1:1
mapping (here: `referenceId` is token 1). -/
theorem numeric_prefix_sets_indicator (now : Int) (dp : JStr → Option Int) (bs : List Nat)
    (d : JStr) (tc : Char) (t' : JStr)
    (hhead : jsTrim ((splitFields 15 bs).headD []) = d ++ tc :: t')
    (hd : d ≠ []) (hall : ∀ c ∈ d, isDigitChar c = true) (htc : isDigitChar tc = false) :
    bs ≠ [] ∧
    isOkB (extractDataFields now dp bs) = true ∧
    (applyAnomalyCorrection (splitFields 15 bs)).fieldShift = false ∧
    (recOf (extractDataFields now dp bs)).emailMobilePresent = (digitsVal d : Int) ∧
    (recOf (extractDataFields now dp bs)).referenceId = (splitFields 15 bs)[1]? := by
  have hparse : jsParseIntDec (jsTrim ((splitFields 15 bs).headD [])) =
      some ((digitsVal d : Int)) := by
    rw [hhead]
    exact jsParseIntDec_digit_run d tc t' hd hall htc
  have hbs : bs ≠ [] := by
    intro hnil
    subst hnil
    rw [splitFields_nil] at hparse
    simp [jsParseIntDec, jsTrim] at hparse
  have hA : applyAnomalyCorrection (splitFields 15 bs) =
      ⟨false, (digitsVal d : Int), splitFields 15 bs⟩ := by
    simp only [applyAnomalyCorrection, hparse]
    rfl
  rw [extract_ok now dp bs hbs, recOf_ok]
  refine ⟨hbs, rfl, by rw [hA], ?_, ?_⟩
  · show (applyAnomalyCorrection (splitFields 15 bs)).emailMobilePresent = (digitsVal d : Int)
    rw [hA]
  · show (applyAnomalyCorrection (splitFields 15 bs)).values[1]? = (splitFields 15 bs)[1]?
    rw [hA]

/-- C10 witness: the payload `"2abc"` yields indicator 2 with no shift. -/
theorem numeric_prefix_sets_indicator_witness :
    jsTrim ((splitFields 15 [50, 97, 98, 99]).headD []) = ['2'] ++ 'a' :: ['b', 'c'] ∧
      (recOf (extractDataFields 0 noParse [50, 97, 98, 99])).emailMobilePresent = 2 := by
  have h := numeric_prefix_sets_indicator 0 noParse [50, 97, 98, 99] ['2'] 'a' ['b', 'c']
    (by decide) (by decide) (by decide) (by decide)
  exact ⟨by decide, by simpa [digitsVal] using h.2.2.2.1⟩

/-! ## Tokenizer recovery lemmas and claim C1 -/

theorem bne_255_of_ne (t : List Nat) (ht : ∀ x ∈ t, x ≠ 255) :
    ∀ x ∈ t, (x != 255) = true := by
  intro x hx
  simpa using ht x hx

theorem splitFields_succ_delim (fuel : Nat) (t L : List Nat) (ht : ∀ x ∈ t, x ≠ 255) :
    splitFields (fuel + 1) (t ++ 255 :: L) = bytesToString t :: splitFields fuel L := by
  have htw : (t ++ 255 :: L).takeWhile (fun b => b != 255) = t :=
    takeWhile_append_cons _ t 255 L (bne_255_of_ne t ht) (by decide)
  have hdw : (t ++ 255 :: L).dropWhile (fun b => b != 255) = 255 :: L :=
    dropWhile_append_cons _ t 255 L (bne_255_of_ne t ht) (by decide)
  have hne : (t ++ 255 :: L).isEmpty = false := by
    cases t <;> rfl
  simp only [splitFields, hne, htw, hdw]
  rfl

theorem splitFields_zero_delim (t L : List Nat) (ht : ∀ x ∈ t, x ≠ 255) :
    splitFields 0 (t ++ 255 :: L) = [bytesToString t] := by
  have htw : (t ++ 255 :: L).takeWhile (fun b => b != 255) = t :=
    takeWhile_append_cons _ t 255 L (bne_255_of_ne t ht) (by decide)
  have hne : (t ++ 255 :: L).isEmpty = false := by
    cases t <;> rfl
  simp [splitFields, hne, htw]

theorem textRegion_cons (t : List Nat) (ts : List (List Nat)) (rest : List Nat) :
    textRegion (t :: ts) ++ rest = t ++ 255 :: (textRegion ts ++ rest) := by
  simp [textRegion]

/-- Sixteen delimiter-terminated `0xFF`-free tokens are tokenized exactly,
and the tokenizer never reads past the sixteenth delimiter. -/
theorem splitFields_textRegion (ts : List (List Nat)) (rest : List Nat) (fuel : Nat)
    (hlen : ts.length = fuel + 1) (hff : ∀ t ∈ ts, ∀ x ∈ t, x ≠ 255) :
    splitFields fuel (textRegion ts ++ rest) = ts.map bytesToString := by
  induction ts generalizing fuel rest with
  | nil => simp at hlen
  | cons t ts' ih =>
      rw [textRegion_cons]
      cases fuel with
      | zero =>
          have : ts' = [] := by
            have := hlen
            simp only [List.length_cons] at this
            exact List.eq_nil_of_length_eq_zero (by omega)
          subst this
          simp only [textRegion, List.map_nil, List.flatten_nil, List.nil_append]
          rw [splitFields_zero_delim t rest (hff t (by simp))]
          rfl
      | succ f =>
          have hlen' : ts'.length = f + 1 := by
            simp only [List.length_cons] at hlen
            omega
          rw [splitFields_succ_delim f t (textRegion ts' ++ rest) (hff t (by simp))]
          rw [ih rest f hlen' (fun u hu => hff u (by simp [hu]))]
          rfl

/-- Each of up to sixteen leading delimiter-terminated tokens is recovered
at its own position, for any bytes that follow. -/
theorem splitFields_recovers (ts : List (List Nat)) (rest : List Nat) (fuel : Nat)
    (i : Nat) (t : List Nat)
    (hle : ts.length ≤ fuel + 1) (hff : ∀ u ∈ ts, ∀ x ∈ u, x ≠ 255)
    (hi : ts[i]? = some t) :
    (splitFields fuel (textRegion ts ++ rest))[i]? = some (bytesToString t) := by
  induction ts generalizing fuel i with
  | nil => simp at hi
  | cons t0 ts' ih =>
      rw [textRegion_cons]
      cases i with
      | zero =>
          have ht0 : t0 = t := by simpa using hi
          cases fuel with
          | zero =>
              rw [splitFields_zero_delim t0 (textRegion ts' ++ rest) (hff t0 (by simp))]
              rw [ht0]
              simp
          | succ f =>
              rw [splitFields_succ_delim f t0 (textRegion ts' ++ rest) (hff t0 (by simp))]
              rw [ht0]
              simp
      | succ j =>
          have hj : ts'[j]? = some t := by simpa using hi
          have hj' : j < ts'.length := by
            by_contra hge
            rw [List.getElem?_eq_none (by omega)] at hj
            exact Option.noConfusion hj
          have hlen' : ts'.length + 1 ≤ fuel + 1 := by simpa using hle
          cases fuel with
          | zero =>
              exfalso
              omega
          | succ f =>
              rw [splitFields_succ_delim f t0 (textRegion ts' ++ rest) (hff t0 (by simp))]
              simp only [List.getElem?_cons_succ]
              exact ih f j (by omega) (fun u hu => hff u (by simp [hu])) hj

/-! ## `jsSlice` bounds lemmas -/

theorem jsSlice_of_bounds (l : List Nat) (s e : Int) (h0 : 0 ≤ s) (hse : s ≤ e)
    (he : e ≤ l.length) :
    jsSlice l s e = (l.drop s.toNat).take ((e - s).toNat) := by
  simp only [jsSlice]
  rw [if_neg (by omega), if_neg (by omega), min_eq_left (by omega : s ≤ (l.length : Int)),
    min_eq_left he]
  rw [List.drop_take]
  congr 1
  omega

theorem jsSlice_zero_end (l : List Nat) (s : Int) : jsSlice l s 0 = [] := by
  simp [jsSlice]

/-- For every returned record, `signature` is the `slice(len - 256, len)`;
when the payload has at least 256 bytes this is exactly the final 256
bytes. -/
theorem signature_drop (now : Int) (dp : JStr → Option Int) (bs : List Nat)
    (hne : bs ≠ []) (hlen : 256 ≤ bs.length) :
    (recOf (extractDataFields now dp bs)).signature = bs.drop (bs.length - 256) := by
  rw [extract_ok now dp bs hne, recOf_ok]
  show jsSlice bs ((bs.length : Int) - 256) (bs.length : Int) = bs.drop (bs.length - 256)
  rw [jsSlice_of_bounds bs _ _ (by omega) (by omega) (by omega)]
  have h1 : (((bs.length : Int)) - (((bs.length : Int)) - 256)).toNat = 256 := by omega
  have h2 : (((bs.length : Int)) - 256).toNat = bs.length - 256 := by omega
  rw [h1, h2]
  exact List.take_of_length_le (by simp [List.length_drop]; omega)

/-- C1 (amended): for a payload laid out as sixteen-or-fewer
delimiter-terminated `0xFF`-free tokens (`token0 ‖ 0xFF ‖ … ‖ tokenN ‖
0xFF`) followed by a binary tail that ends in a 256-byte signature, the
field parser recovers every `tokenI` (as its Latin-1 string) at field
position `I`, and the extracted `signature` is exactly the last 256 bytes
of the buffer.  (The claim as frozen omits the delimiter after `tokenN`;
see the counterexample.) -/
theorem extract_recovers_delimited_tokens_and_signature (now : Int) (dp : JStr → Option Int)
    (ts : List (List Nat)) (bin : List Nat)
    (_hts : ts ≠ []) (hlen : ts.length ≤ 16) (hff : ∀ t ∈ ts, ∀ x ∈ t, x ≠ 255)
    (hbin : 256 ≤ bin.length) :
    (∀ (i : Nat) (t : List Nat), ts[i]? = some t →
      (splitFields 15 (textRegion ts ++ bin))[i]? = some (bytesToString t)) ∧
    (recOf (extractDataFields now dp (textRegion ts ++ bin))).signature
      = (textRegion ts ++ bin).drop ((textRegion ts ++ bin).length - 256) := by
  constructor
  · intro i t hi
    exact splitFields_recovers ts bin 15 i t (by omega) hff hi
  · apply signature_drop
    · apply List.ne_nil_of_length_pos
      simp only [List.length_append]
      omega
    · simp only [List.length_append]
      omega

/-- C1 witness: two tokens `"3"`, `"B"`, each delimiter-terminated, then
256 zero bytes: token 1 is recovered as `"B"` and the signature is the
256 zero bytes. -/
theorem extract_recovers_delimited_tokens_witness :
    (splitFields 15 (textRegion [[51], [66]] ++ List.replicate 256 0))[1]?
        = some (bytesToString [66]) ∧
      bytesToString [66] = ['B'] ∧
      (recOf (extractDataFields 0 noParse (textRegion [[51], [66]] ++ List.replicate 256 0))).signature
        = (textRegion [[51], [66]] ++ List.replicate 256 0).drop
            ((textRegion [[51], [66]] ++ List.replicate 256 0).length - 256) ∧
      (textRegion [[51], [66]] ++ List.replicate 256 0).drop
          ((textRegion [[51], [66]] ++ List.replicate 256 0).length - 256)
        = List.replicate 256 0 := by
  have h := extract_recovers_delimited_tokens_and_signature 0 noParse [[51], [66]]
    (List.replicate 256 0) (by decide) (by decide) (by decide) (by decide)
  exact ⟨h.1 1 [66] (by decide), by decide, h.2, by decide⟩

/-- C1 counterexample: in the layout exactly as the claim states it —
no delimiter between `tokenN` and the binary tail — the final token
absorbs the whole binary tail: for `"A" ‖ 0xFF ‖ "B" ‖ photo ‖ signature`
the field at position 1 is not `"B"`. -/
theorem extract_last_token_absorbs_binary_tail_cex :
    (splitFields 15 ([65, 255, 66] ++ List.replicate 257 0))[1]?
        = some (bytesToString (66 :: List.replicate 257 0)) ∧
      (splitFields 15 ([65, 255, 66] ++ List.replicate 257 0))[1]? ≠ some ['B'] ∧
      isOkB (extractDataFields 0 noParse ([65, 255, 66] ++ List.replicate 257 0)) = true := by
  decide

/-! ## Record-projection and anomaly-step lemmas -/

theorem buildRecord_photo (now : Int) (dp : JStr → Option Int) (bs : List Nat)
    (fv : List JStr) :
    (buildRecord now dp bs fv).photo =
      (binarySegments bs
        ((applyAnomalyCorrection fv).values.foldl (fun acc s => acc + s.length + 1) 0)
        (applyAnomalyCorrection fv).emailMobilePresent
        (applyAnomalyCorrection fv).fieldShift).2.2 := rfl

theorem buildRecord_mobileHash (now : Int) (dp : JStr → Option Int) (bs : List Nat)
    (fv : List JStr) :
    (buildRecord now dp bs fv).mobileHash =
      (binarySegments bs
        ((applyAnomalyCorrection fv).values.foldl (fun acc s => acc + s.length + 1) 0)
        (applyAnomalyCorrection fv).emailMobilePresent
        (applyAnomalyCorrection fv).fieldShift).1 := rfl

theorem buildRecord_emailHash (now : Int) (dp : JStr → Option Int) (bs : List Nat)
    (fv : List JStr) :
    (buildRecord now dp bs fv).emailHash =
      (binarySegments bs
        ((applyAnomalyCorrection fv).values.foldl (fun acc s => acc + s.length + 1) 0)
        (applyAnomalyCorrection fv).emailMobilePresent
        (applyAnomalyCorrection fv).fieldShift).2.1 := rfl

theorem buildRecord_indicator (now : Int) (dp : JStr → Option Int) (bs : List Nat)
    (fv : List JStr) :
    (buildRecord now dp bs fv).emailMobilePresent =
      (applyAnomalyCorrection fv).emailMobilePresent := rfl

/-- When the correction does not trigger, the token list passes through
unchanged and the indicator is the parsed first token. -/
theorem applyAnomaly_not_shift (fv : List JStr)
    (h : (applyAnomalyCorrection fv).fieldShift = false) :
    applyAnomalyCorrection fv =
      ⟨false, (jsParseIntDec (jsTrim (fv.headD []))).getD 0, fv⟩ := by
  by_cases hc : ((jsParseIntDec (jsTrim (fv.headD []))).isNone &&
      (fv[1]? == some ['3'])) = true
  · exfalso
    simp only [applyAnomalyCorrection, hc, if_true] at h
    exact Bool.noConfusion h
  · simp only [applyAnomalyCorrection]
    rw [if_neg hc]

/-- When the correction triggers, the indicator is forced to 3. -/
theorem applyAnomaly_shift_indicator (fv : List JStr)
    (h : (applyAnomalyCorrection fv).fieldShift = true) :
    (applyAnomalyCorrection fv).emailMobilePresent = 3 := by
  by_cases hc : ((jsParseIntDec (jsTrim (fv.headD []))).isNone &&
      (fv[1]? == some ['3'])) = true
  · simp only [applyAnomalyCorrection, hc, if_true]
  · exfalso
    simp only [applyAnomalyCorrection] at h
    rw [if_neg hc] at h
    exact Bool.noConfusion h

/-- Summing `length + 1` over the tokenized text fields gives back the
byte length of the delimiter-terminated text region. -/
theorem foldl_len_textRegion (ts : List (List Nat)) :
    (ts.map bytesToString).foldl (fun acc s => acc + s.length + 1) 0
      = (textRegion ts).length := by
  suffices h : ∀ acc : Nat, (ts.map bytesToString).foldl (fun acc s => acc + s.length + 1) acc
      = acc + (textRegion ts).length by
    simpa using h 0
  induction ts with
  | nil => intro acc; simp [textRegion]
  | cons t ts' ih =>
      intro acc
      simp only [List.map_cons, List.foldl_cons, bytesToString, List.length_map]
      rw [ih]
      simp only [textRegion, List.map_cons, List.flatten_cons, List.length_append,
        List.length_append, List.length_cons]
      simp [textRegion]
      omega

/-! ## Claim C2: the photo byte range -/

/-- With the text region fully consumed (`currentIndex` equal to its
length), no shift, and a binary tail long enough for the indicated
segments, the photo slice is the tail minus its trailing hash/signature
bytes. -/
theorem binarySegments_photo (text tl : List Nat) (v : Int)
    (h : 256 + hashBytesFor v ≤ tl.length) :
    (binarySegments (text ++ tl) text.length v false).2.2
      = tl.take (tl.length - (256 + hashBytesFor v)) := by
  have hlen : (text ++ tl).length = text.length + tl.length := by simp
  by_cases hv3 : v = 3
  · subst hv3
    rw [show hashBytesFor 3 = 64 from by decide] at h ⊢
    simp only [binarySegments, show ((3 : Int) == 3 || false) = true by decide, if_true]
    rw [jsSlice_of_bounds _ _ _ (by omega) (by rw [hlen]; push_cast; omega)
      (by rw [hlen]; push_cast; omega)]
    rw [show ((text.length : Int)).toNat = text.length from rfl, List.drop_left]
    congr 1
    rw [hlen]
    push_cast
    omega
  · by_cases hv2 : v = 2
    · subst hv2
      rw [show hashBytesFor 2 = 32 from by decide] at h ⊢
      simp only [binarySegments, show ((2 : Int) == 3 || false) = false by decide,
        Bool.false_eq_true, if_false, show ((2 : Int) == 2) = true by decide, if_true]
      rw [jsSlice_of_bounds _ _ _ (by omega) (by rw [hlen]; push_cast; omega)
        (by rw [hlen]; push_cast; omega)]
      rw [show ((text.length : Int)).toNat = text.length from rfl, List.drop_left]
      congr 1
      rw [hlen]
      push_cast
      omega
    · by_cases hv1 : v = 1
      · subst hv1
        rw [show hashBytesFor 1 = 32 from by decide] at h ⊢
        simp only [binarySegments, show ((1 : Int) == 3 || false) = false by decide,
          Bool.false_eq_true, if_false, show ((1 : Int) == 2) = false by decide,
          show ((1 : Int) == 1) = true by decide, if_true]
        rw [jsSlice_of_bounds _ _ _ (by omega) (by rw [hlen]; push_cast; omega)
          (by rw [hlen]; push_cast; omega)]
        rw [show ((text.length : Int)).toNat = text.length from rfl, List.drop_left]
        congr 1
        rw [hlen]
        push_cast
        omega
      · have hb : hashBytesFor v = 0 := by simp [hashBytesFor, hv3, hv2, hv1]
        have hv3b : (v == 3) = false := by simp [hv3]
        have hv2b : (v == 2) = false := by simp [hv2]
        have hv1b : (v == 1) = false := by simp [hv1]
        rw [hb] at h ⊢
        simp only [binarySegments, hv3b, hv2b, hv1b, Bool.or_false,
          Bool.false_eq_true, if_false]
        rw [jsSlice_of_bounds _ _ _ (by omega) (by rw [hlen]; push_cast; omega)
          (by rw [hlen]; push_cast; omega)]
        rw [show ((text.length : Int)).toNat = text.length from rfl, List.drop_left]
        congr 1
        rw [hlen]
        push_cast
        omega

/-- C2 (amended): (a) for a payload of sixteen delimiter-terminated
`0xFF`-free tokens followed by a binary tail long enough for the
indicated segments, when the anomaly correction does not trigger, `photo`
is exactly the bytes between the end of the text region and the start of
the first present binary segment (hashes or signature); (b) every
256-byte payload whose parsed record carries indicator 0 yields an empty
photo.  (As frozen the claim also covers payloads whose last token is not
delimiter-terminated and payloads shorter than the indicated segments,
where the source's `slice` clamping breaks the equality; see the
counterexample.) -/
theorem photo_between_text_and_binary_tail :
    (∀ (now : Int) (dp : JStr → Option Int) (ts : List (List Nat)) (tl : List Nat),
      ts.length = 16 → (∀ t ∈ ts, ∀ x ∈ t, x ≠ 255) →
      (applyAnomalyCorrection (ts.map bytesToString)).fieldShift = false →
      256 + hashBytesFor ((applyAnomalyCorrection (ts.map bytesToString)).emailMobilePresent)
          ≤ tl.length →
      (recOf (extractDataFields now dp (textRegion ts ++ tl))).photo
        = tl.take (tl.length -
            (256 + hashBytesFor
              ((applyAnomalyCorrection (ts.map bytesToString)).emailMobilePresent)))) ∧
    (∀ (now : Int) (dp : JStr → Option Int) (bs : List Nat),
      bs.length = 256 →
      (recOf (extractDataFields now dp bs)).emailMobilePresent = 0 →
      (recOf (extractDataFields now dp bs)).photo = []) := by
  constructor
  · intro now dp ts tl hlen16 hff hnoshift htail
    have hsf : splitFields 15 (textRegion ts ++ tl) = ts.map bytesToString :=
      splitFields_textRegion ts tl 15 (by omega) hff
    have hne : textRegion ts ++ tl ≠ [] := by
      apply List.ne_nil_of_length_pos
      simp only [List.length_append]
      have : 256 ≤ tl.length := by
        have := htail
        omega
      omega
    rw [extract_ok now dp _ hne, recOf_ok, buildRecord_photo, hsf]
    rw [applyAnomaly_not_shift (ts.map bytesToString) hnoshift] at *
    show (binarySegments (textRegion ts ++ tl)
        ((ts.map bytesToString).foldl (fun acc s => acc + s.length + 1) 0) _ false).2.2 = _
    rw [foldl_len_textRegion]
    exact binarySegments_photo (textRegion ts) tl _ htail
  · intro now dp bs h256 hind
    have hne : bs ≠ [] := by
      intro h
      subst h
      simp at h256
    rw [extract_ok now dp bs hne, recOf_ok] at hind ⊢
    rw [buildRecord_indicator] at hind
    have hshift : (applyAnomalyCorrection (splitFields 15 bs)).fieldShift = false := by
      cases hfs : (applyAnomalyCorrection (splitFields 15 bs)).fieldShift with
      | false => rfl
      | true =>
          have h3 := applyAnomaly_shift_indicator _ hfs
          rw [hind] at h3
          exact absurd h3 (by norm_num)
    rw [buildRecord_photo, hind, hshift]
    simp only [binarySegments, show ((0 : Int) == 3 || false) = false by decide,
      show ((0 : Int) == 2) = false by decide, show ((0 : Int) == 1) = false by decide,
      Bool.false_eq_true, if_false, h256]
    exact jsSlice_zero_end bs _

/-- C2 witness: sixteen tokens (`"0"` then fifteen empty), indicator 0,
and a 257-byte tail: the photo is the single tail byte before the
signature. -/
theorem photo_between_text_and_binary_tail_witness :
    (recOf (extractDataFields 0 noParse
        (textRegion ([48] :: List.replicate 15 []) ++ List.replicate 257 9))).photo
      = [9] ∧
    (recOf (extractDataFields 0 noParse (List.replicate 256 0))).photo = [] := by
  constructor
  · have h := photo_between_text_and_binary_tail.1 0 noParse ([48] :: List.replicate 15 [])
      (List.replicate 257 9) (by decide) (by decide) (by decide) (by decide)
    rw [h]
    decide
  · exact photo_between_text_and_binary_tail.2 0 noParse (List.replicate 256 0)
      (by decide) (by decide)

/-- C2 counterexample: in the payload `"0" ‖ 0xFF ‖ "x" ‖ 0xFF ‖ 0x50 ‖
signature(256 × 0x00)` the tokenizer absorbs the binary tail into the
third token, so `currentIndex` overshoots the buffer and the returned
`photo` is empty — yet the byte range from the offset after the last text
delimiter (4) to the signature start (5) is the nonempty `[0x50]`. -/
theorem photo_clamped_empty_cex :
    isOkB (extractDataFields 0 noParse ([48, 255, 120, 255, 80] ++ List.replicate 256 0))
        = true ∧
      (recOf (extractDataFields 0 noParse
        ([48, 255, 120, 255, 80] ++ List.replicate 256 0))).emailMobilePresent = 0 ∧
      (recOf (extractDataFields 0 noParse
        ([48, 255, 120, 255, 80] ++ List.replicate 256 0))).photo = [] ∧
      (recOf (extractDataFields 0 noParse
        ([48, 255, 120, 255, 80] ++ List.replicate 256 0))).signature
        = List.replicate 256 0 ∧
      (([48, 255, 120, 255, 80] ++ List.replicate 256 0).take 5).drop 4 = [80] := by
  decide

/-! ## Claim C3: hash segment layout -/

/-- Hash components of `binarySegments` for payloads long enough to hold
the indicated segments (the `fieldShift → indicator 3` side condition
mirrors the source, where the shift also forces the both-hashes branch). -/
theorem binarySegments_hashes (bs : List Nat) (c : Nat) (v : Int) (sh : Bool)
    (hsh : sh = true → v = 3) :
    (v = 3 → 320 ≤ bs.length →
      (binarySegments bs c v sh).1
          = some (bytesToHexString ((bs.drop (bs.length - 288)).take 32)) ∧
      (binarySegments bs c v sh).2.1
          = some (bytesToHexString ((bs.drop (bs.length - 320)).take 32))) ∧
    (v = 2 → 288 ≤ bs.length →
      (binarySegments bs c v sh).1
          = some (bytesToHexString ((bs.drop (bs.length - 288)).take 32)) ∧
      (binarySegments bs c v sh).2.1 = none) ∧
    (v = 1 → 288 ≤ bs.length →
      (binarySegments bs c v sh).2.1
          = some (bytesToHexString ((bs.drop (bs.length - 288)).take 32)) ∧
      (binarySegments bs c v sh).1 = none) ∧
    (v ≠ 3 → v ≠ 2 → v ≠ 1 →
      (binarySegments bs c v sh).1 = none ∧ (binarySegments bs c v sh).2.1 = none) := by
  refine ⟨?_, ?_, ?_, ?_⟩
  · intro hv3 hn
    subst hv3
    simp only [binarySegments, show ((3 : Int) == 3) = true by decide, Bool.true_or, if_true]
    constructor
    · rw [jsSlice_of_bounds _ _ _ (by omega) (by omega) (by omega)]
      rw [show ((bs.length : Int) - 256 - 32).toNat = bs.length - 288 from by omega,
        show ((bs.length : Int) - 256 - 32 + 32 - ((bs.length : Int) - 256 - 32)).toNat = 32
          from by omega]
    · rw [jsSlice_of_bounds _ _ _ (by omega) (by omega) (by omega)]
      rw [show ((bs.length : Int) - 256 - 32 - 32).toNat = bs.length - 320 from by omega,
        show ((bs.length : Int) - 256 - 32 - 32 + 32 - ((bs.length : Int) - 256 - 32 - 32)).toNat
            = 32 from by omega]
  · intro hv2 hn
    subst hv2
    have hshf : sh = false := by
      cases hs : sh with
      | false => rfl
      | true => exact absurd (hsh hs) (by norm_num)
    subst hshf
    simp only [binarySegments, show ((2 : Int) == 3 || false) = false by decide,
      Bool.false_eq_true, if_false, show ((2 : Int) == 2) = true by decide, if_true]
    refine ⟨?_, trivial⟩
    rw [jsSlice_of_bounds _ _ _ (by omega) (by omega) (by omega)]
    rw [show ((bs.length : Int) - 256 - 32).toNat = bs.length - 288 from by omega,
      show ((bs.length : Int) - 256 - 32 + 32 - ((bs.length : Int) - 256 - 32)).toNat = 32
        from by omega]
  · intro hv1 hn
    subst hv1
    have hshf : sh = false := by
      cases hs : sh with
      | false => rfl
      | true => exact absurd (hsh hs) (by norm_num)
    subst hshf
    simp only [binarySegments, show ((1 : Int) == 3 || false) = false by decide,
      Bool.false_eq_true, if_false, show ((1 : Int) == 2) = false by decide,
      show ((1 : Int) == 1) = true by decide, if_true]
    refine ⟨?_, trivial⟩
    rw [jsSlice_of_bounds _ _ _ (by omega) (by omega) (by omega)]
    rw [show ((bs.length : Int) - 256 - 32).toNat = bs.length - 288 from by omega,
      show ((bs.length : Int) - 256 - 32 + 32 - ((bs.length : Int) - 256 - 32)).toNat = 32
        from by omega]
  · intro hv3 hv2 hv1
    have hshf : sh = false := by
      cases hs : sh with
      | false => rfl
      | true => exact absurd (hsh hs) hv3
    subst hshf
    simp only [binarySegments, show (v == 3) = false by simp [hv3],
      show (v == 2) = false by simp [hv2], show (v == 1) = false by simp [hv1],
      Bool.or_false, Bool.false_eq_true, if_false]
    exact ⟨trivial, trivial⟩

/-- C3 (amended): in every parsed record with indicator 3 and a payload
of at least 320 bytes, both hashes are exactly 32 bytes, taken from the
64 bytes immediately before the 256-byte signature, ordered **email
before mobile** in the payload's byte order (`emailHash` from
`[len-320, len-288)` and `mobileHash` from `[len-288, len-256)`); with
indicator 2 (resp. 1) and at least 288 bytes only `mobileHash` (resp.
`emailHash`) is present, from the 32 bytes immediately before the
signature; with any other indicator no hash is present.  (The frozen
claim's order "mobile before email" is the reverse of what the code
extracts; see the counterexample.) -/
theorem hash_segments_layout (now : Int) (dp : JStr → Option Int) (bs : List Nat)
    (hne : bs ≠ []) :
    ((recOf (extractDataFields now dp bs)).emailMobilePresent = 3 → 320 ≤ bs.length →
      (recOf (extractDataFields now dp bs)).mobileHash
          = some (bytesToHexString ((bs.drop (bs.length - 288)).take 32)) ∧
      (recOf (extractDataFields now dp bs)).emailHash
          = some (bytesToHexString ((bs.drop (bs.length - 320)).take 32))) ∧
    ((recOf (extractDataFields now dp bs)).emailMobilePresent = 2 → 288 ≤ bs.length →
      (recOf (extractDataFields now dp bs)).mobileHash
          = some (bytesToHexString ((bs.drop (bs.length - 288)).take 32)) ∧
      (recOf (extractDataFields now dp bs)).emailHash = none) ∧
    ((recOf (extractDataFields now dp bs)).emailMobilePresent = 1 → 288 ≤ bs.length →
      (recOf (extractDataFields now dp bs)).emailHash
          = some (bytesToHexString ((bs.drop (bs.length - 288)).take 32)) ∧
      (recOf (extractDataFields now dp bs)).mobileHash = none) ∧
    ((recOf (extractDataFields now dp bs)).emailMobilePresent ≠ 3 →
      (recOf (extractDataFields now dp bs)).emailMobilePresent ≠ 2 →
      (recOf (extractDataFields now dp bs)).emailMobilePresent ≠ 1 →
      (recOf (extractDataFields now dp bs)).mobileHash = none ∧
      (recOf (extractDataFields now dp bs)).emailHash = none) := by
  rw [extract_ok now dp bs hne, recOf_ok]
  rw [buildRecord_indicator, buildRecord_mobileHash, buildRecord_emailHash]
  exact binarySegments_hashes bs _ _ _
    (applyAnomaly_shift_indicator (splitFields 15 bs))

/-- C3 witness: indicator 3 with email bytes `0x05 × 32` directly before
mobile bytes `0x06 × 32`, directly before the signature. -/
theorem hash_segments_layout_witness :
    (recOf (extractDataFields 0 noParse
        ([51, 255] ++ List.replicate 32 5 ++ List.replicate 32 6 ++ List.replicate 256 0))).mobileHash
      = some (bytesToHexString (List.replicate 32 6)) ∧
    (recOf (extractDataFields 0 noParse
        ([51, 255] ++ List.replicate 32 5 ++ List.replicate 32 6 ++ List.replicate 256 0))).emailHash
      = some (bytesToHexString (List.replicate 32 5)) := by
  have h := (hash_segments_layout 0 noParse
    ([51, 255] ++ List.replicate 32 5 ++ List.replicate 32 6 ++ List.replicate 256 0)
    (by decide)).1 (by decide) (by decide)
  refine ⟨?_, ?_⟩
  · rw [h.1]
    decide
  · rw [h.2]
    decide

/-- C3 counterexample: with indicator 3 and distinct fill bytes, the
32 bytes immediately before the signature are extracted as `mobileHash`
and the 32 bytes before those as `emailHash` — email precedes mobile in
the payload's byte order, contradicting the frozen claim's "mobile before
email". -/
theorem email_before_mobile_cex :
    isOkB (extractDataFields 0 noParse
        ([51, 255] ++ List.replicate 32 1 ++ List.replicate 32 2 ++ List.replicate 256 0))
        = true ∧
      (recOf (extractDataFields 0 noParse
        ([51, 255] ++ List.replicate 32 1 ++ List.replicate 32 2 ++ List.replicate 256 0))).emailMobilePresent
        = 3 ∧
      (recOf (extractDataFields 0 noParse
        ([51, 255] ++ List.replicate 32 1 ++ List.replicate 32 2 ++ List.replicate 256 0))).emailHash
        = some (bytesToHexString (List.replicate 32 1)) ∧
      (recOf (extractDataFields 0 noParse
        ([51, 255] ++ List.replicate 32 1 ++ List.replicate 32 2 ++ List.replicate 256 0))).mobileHash
        = some (bytesToHexString (List.replicate 32 2)) ∧
      (([51, 255] ++ List.replicate 32 1 ++ List.replicate 32 2 ++ List.replicate 256 0).take 34).drop 2
        = List.replicate 32 1 ∧
      (([51, 255] ++ List.replicate 32 1 ++ List.replicate 32 2 ++ List.replicate 256 0).take 66).drop 34
        = List.replicate 32 2 ∧
      (recOf (extractDataFields 0 noParse
        ([51, 255] ++ List.replicate 32 1 ++ List.replicate 32 2 ++ List.replicate 256 0))).signature
        = List.replicate 256 0 := by
  decide

/-! ## Claim C7: the decimal-to-bytes codec -/

theorem natHexCharsAux_lt (f n : Nat) (h : n < 16) :
    natHexCharsAux f n = [hexDigitChar n] := by
  cases f with
  | zero => rfl
  | succ g => simp [natHexCharsAux, h]

theorem natHexCharsAux_fuel (n : Nat) : ∀ f1 f2 : Nat, n ≤ f1 → n ≤ f2 →
    natHexCharsAux f1 n = natHexCharsAux f2 n := by
  induction n using Nat.strong_induction_on with
  | _ n ih =>
      intro f1 f2 h1 h2
      by_cases h16 : n < 16
      · rw [natHexCharsAux_lt f1 n h16, natHexCharsAux_lt f2 n h16]
      · obtain ⟨g1, rfl⟩ : ∃ g1, f1 = g1 + 1 := ⟨f1 - 1, by omega⟩
        obtain ⟨g2, rfl⟩ : ∃ g2, f2 = g2 + 1 := ⟨f2 - 1, by omega⟩
        simp only [natHexCharsAux, h16, if_false]
        have hdiv : n / 16 < n := Nat.div_lt_self (by omega) (by omega)
        rw [ih (n / 16) hdiv g1 g2 (by omega) (by omega)]

theorem natHexChars_lt (n : Nat) (h : n < 16) : natHexChars n = [hexDigitChar n] :=
  natHexCharsAux_lt n n h

theorem natHexChars_ge (n : Nat) (h : 16 ≤ n) :
    natHexChars n = natHexChars (n / 16) ++ [hexDigitChar (n % 16)] := by
  obtain ⟨g, hg⟩ : ∃ g, n = g + 1 := ⟨n - 1, by omega⟩
  show natHexCharsAux n n = _
  rw [hg]
  simp only [natHexCharsAux, show ¬(g + 1 < 16) by omega, if_false]
  rw [← hg, natHexCharsAux_fuel (n / 16) g (n / 16) (by omega) (by omega)]
  rfl

theorem natToBEBytesAux_lt (f n : Nat) (h : n < 256) :
    natToBEBytesAux f n = [n] := by
  cases f with
  | zero => rfl
  | succ g => simp [natToBEBytesAux, h]

theorem natToBEBytesAux_fuel (n : Nat) : ∀ f1 f2 : Nat, n ≤ f1 → n ≤ f2 →
    natToBEBytesAux f1 n = natToBEBytesAux f2 n := by
  induction n using Nat.strong_induction_on with
  | _ n ih =>
      intro f1 f2 h1 h2
      by_cases h256 : n < 256
      · rw [natToBEBytesAux_lt f1 n h256, natToBEBytesAux_lt f2 n h256]
      · obtain ⟨g1, rfl⟩ : ∃ g1, f1 = g1 + 1 := ⟨f1 - 1, by omega⟩
        obtain ⟨g2, rfl⟩ : ∃ g2, f2 = g2 + 1 := ⟨f2 - 1, by omega⟩
        simp only [natToBEBytesAux, h256, if_false]
        have hdiv : n / 256 < n := Nat.div_lt_self (by omega) (by omega)
        rw [ih (n / 256) hdiv g1 g2 (by omega) (by omega)]

theorem natToBEBytes_lt (n : Nat) (h : n < 256) : natToBEBytes n = [n] :=
  natToBEBytesAux_lt n n h

theorem natToBEBytes_ge (n : Nat) (h : 256 ≤ n) :
    natToBEBytes n = natToBEBytes (n / 256) ++ [n % 256] := by
  obtain ⟨g, hg⟩ : ∃ g, n = g + 1 := ⟨n - 1, by omega⟩
  show natToBEBytesAux n n = _
  rw [hg]
  simp only [natToBEBytesAux, show ¬(g + 1 < 256) by omega, if_false]
  rw [← hg, natToBEBytesAux_fuel (n / 256) g (n / 256) (by omega) (by omega)]
  rfl

/-- One hex pair of rendered digits parses back to its byte value. -/
theorem parse_pair_val (a b : Nat) (ha : a < 16) (hb : b < 16) :
    jsToUint8 (jsParseIntHex [hexDigitChar a, hexDigitChar b]) = 16 * a + b := by
  have h : ∀ x y : Fin 16,
      jsToUint8 (jsParseIntHex [hexDigitChar x.val, hexDigitChar y.val])
        = 16 * x.val + y.val := by decide
  exact h ⟨a, ha⟩ ⟨b, hb⟩

theorem padEvenHex_append2 (xs : JStr) (a b : Char) :
    padEvenHex (xs ++ [a, b]) = padEvenHex xs ++ [a, b] := by
  by_cases h : xs.length % 2 = 0
  · rw [padEvenHex, padEvenHex, if_neg (by simp [List.length_append]; omega),
      if_neg (by omega)]
  · rw [padEvenHex, padEvenHex, if_pos (by simp [List.length_append]; omega),
      if_pos (by omega)]
    rfl

theorem padEvenHex_even (xs : JStr) : (padEvenHex xs).length % 2 = 0 := by
  by_cases h : xs.length % 2 = 0
  · rw [padEvenHex, if_neg (by omega)]
    exact h
  · rw [padEvenHex, if_pos (by omega)]
    simp only [List.length_cons]
    omega

theorem parseHexPairs_append : ∀ (ys : JStr), ys.length % 2 = 0 → ∀ a b : Char,
    parseHexPairs (ys ++ [a, b]) = parseHexPairs ys ++ [jsToUint8 (jsParseIntHex [a, b])]
  | [], _, a, b => by simp [parseHexPairs]
  | [c], h, a, b => by simp at h
  | c1 :: c2 :: ys', h, a, b => by
      have h' : ys'.length % 2 = 0 := by
        simp only [List.length_cons] at h
        omega
      simp only [List.cons_append, List.append_eq, parseHexPairs]
      rw [parseHexPairs_append ys' h' a b]

/-- The hex-render / pad / reparse pipeline of the codec computes exactly
the minimal big-endian base-256 digits. -/
theorem pipeline_eq_beBytes : ∀ n : Nat,
    parseHexPairs (padEvenHex (natHexChars n)) = natToBEBytes n := by
  intro n
  induction n using Nat.strong_induction_on with
  | _ n ih =>
      by_cases h16 : n < 16
      · rw [natHexChars_lt n h16]
        rw [show padEvenHex [hexDigitChar n] = ['0', hexDigitChar n] from by
          simp [padEvenHex]]
        rw [show ('0' : Char) = hexDigitChar 0 from rfl]
        show [jsToUint8 (jsParseIntHex [hexDigitChar 0, hexDigitChar n])] = _
        rw [parse_pair_val 0 n (by omega) h16, natToBEBytes_lt n (by omega)]
        simp
      · by_cases h256 : n < 256
        · rw [natHexChars_ge n (by omega), natHexChars_lt (n / 16) (by omega)]
          rw [show padEvenHex ([hexDigitChar (n / 16)] ++ [hexDigitChar (n % 16)])
              = [hexDigitChar (n / 16), hexDigitChar (n % 16)] from by simp [padEvenHex]]
          show [jsToUint8 (jsParseIntHex [hexDigitChar (n / 16), hexDigitChar (n % 16)])] = _
          rw [parse_pair_val (n / 16) (n % 16) (by omega) (by omega),
            natToBEBytes_lt n h256]
          have : 16 * (n / 16) + n % 16 = n := by omega
          rw [this]
        · have hsplit : natHexChars n
              = natHexChars (n / 256) ++ [hexDigitChar (n / 16 % 16), hexDigitChar (n % 16)] := by
            rw [natHexChars_ge n (by omega), natHexChars_ge (n / 16) (by omega)]
            rw [Nat.div_div_eq_div_mul]
            simp
          rw [hsplit, show natHexChars (n / 256) ++ [hexDigitChar (n / 16 % 16), hexDigitChar (n % 16)]
              = natHexChars (n / 256) ++ ([hexDigitChar (n / 16 % 16)] ++ [hexDigitChar (n % 16)]) from by simp]
          rw [show natHexChars (n / 256) ++ ([hexDigitChar (n / 16 % 16)] ++ [hexDigitChar (n % 16)])
              = (natHexChars (n / 256)) ++ [hexDigitChar (n / 16 % 16), hexDigitChar (n % 16)] from by simp]
          rw [padEvenHex_append2 (natHexChars (n / 256)) (hexDigitChar (n / 16 % 16))
            (hexDigitChar (n % 16))]
          rw [parseHexPairs_append (padEvenHex (natHexChars (n / 256)))
            (padEvenHex_even (natHexChars (n / 256))) _ _]
          rw [ih (n / 256) (Nat.div_lt_self (by omega) (by omega))]
          rw [parse_pair_val (n / 16 % 16) (n % 16) (by omega) (by omega)]
          rw [natToBEBytes_ge n (by omega)]
          have : 16 * (n / 16 % 16) + n % 16 = n % 256 := by omega
          rw [this]

theorem dropWhile_all_false {α : Type} (p : α → Bool) (l : List α)
    (h : ∀ c ∈ l, p c = false) : l.dropWhile p = l := by
  cases l with
  | nil => rfl
  | cons a t => simp [List.dropWhile_cons, h a (by simp)]

theorem jsTrim_of_digits (s : JStr) (h : ∀ c ∈ s, isDigitChar c = true) : jsTrim s = s := by
  unfold jsTrim
  rw [dropWhile_all_false _ s (fun c hc => digit_not_ws c (h c hc))]
  rw [dropWhile_all_false _ s.reverse
    (fun c hc => digit_not_ws c (h c (List.mem_reverse.mp hc)))]
  exact List.reverse_reverse s

theorem digit_beq_false (c : Char) (hc : isDigitChar c = true) (d : Char)
    (hd : isDigitChar d = false) : (c == d) = false := by
  rw [beq_eq_false_iff_ne]
  intro he
  rw [he, hd] at hc
  exact Bool.noConfusion hc

theorem signedDecimalBig_digits (s : JStr) (hne : s ≠ [])
    (h : ∀ c ∈ s, isDigitChar c = true) :
    signedDecimalBig s = some ((digitsVal s : Nat) : Int) := by
  obtain ⟨c0, s', rfl⟩ : ∃ c0 s', s = c0 :: s' := by
    cases s with
    | nil => exact absurd rfl hne
    | cons a t => exact ⟨a, t, rfl⟩
  have hc0 : isDigitChar c0 = true := h c0 (by simp)
  unfold signedDecimalBig
  split
  · next rest heq =>
      rcases (by simpa using heq : c0 = '-' ∧ s' = rest) with ⟨h1, -⟩
      rw [h1] at hc0
      exact absurd hc0 (by decide)
  · next rest heq =>
      rcases (by simpa using heq : c0 = '+' ∧ s' = rest) with ⟨h1, -⟩
      rw [h1] at hc0
      exact absurd hc0 (by decide)
  · next =>
      rw [parseAllDigits, if_neg (by simp), if_pos (by simpa using h)]
      rfl

theorem jsBigIntOfString_digits (s : JStr) (hne : s ≠ [])
    (h : ∀ c ∈ s, isDigitChar c = true) :
    jsBigIntOfString s = some ((digitsVal s : Nat) : Int) := by
  cases s with
  | nil => exact absurd rfl hne
  | cons c0 t =>
      cases t with
      | nil =>
          simp only [jsBigIntOfString, jsTrim_of_digits [c0] h]
          exact signedDecimalBig_digits [c0] (by simp) h
      | cons c1 rest =>
          have hc1 : isDigitChar c1 = true := h c1 (by simp)
          simp only [jsBigIntOfString, jsTrim_of_digits (c0 :: c1 :: rest) h]
          rw [if_neg, if_neg, if_neg]
          · exact signedDecimalBig_digits (c0 :: c1 :: rest) (by simp) h
          · simp [digit_beq_false c1 hc1 'b' (by decide),
              digit_beq_false c1 hc1 'B' (by decide)]
          · simp [digit_beq_false c1 hc1 'o' (by decide),
              digit_beq_false c1 hc1 'O' (by decide)]
          · simp [digit_beq_false c1 hc1 'x' (by decide),
              digit_beq_false c1 hc1 'X' (by decide)]

/-- C7 (amended): the codec fails exactly when `BigInt(string)` throws,
i.e. exactly when the input is not a `StringIntegerLiteral` — which,
unlike the frozen claim's "valid non-negative integer literal", also
admits the empty/whitespace-only string (value 0), signed decimals and
`0x`/`0o`/`0b` forms; on every nonempty all-digit input it succeeds with
the minimal big-endian byte representation of the value (so `"255"` gives
`0xFF` and `"256"` gives `[0x01, 0x00]`). -/
theorem convertBase10_spec (s : JStr) :
    (isOkB (convertBase10ToByteArray s) = false ↔ jsBigIntOfString s = none) ∧
    (isNonNegIntegerLiteral s = true →
      convertBase10ToByteArray s = Except.ok (natToBEBytes (digitsVal s))) := by
  constructor
  · cases hb : jsBigIntOfString s with
    | none => simp [convertBase10ToByteArray, hb, isOkB]
    | some v => simp [convertBase10ToByteArray, hb, isOkB]
  · intro hlit
    have hne : s ≠ [] := by
      intro he
      rw [he] at hlit
      exact absurd hlit (by decide)
    have hall : ∀ c ∈ s, isDigitChar c = true := by
      simp only [isNonNegIntegerLiteral, Bool.and_eq_true, List.all_eq_true] at hlit
      exact hlit.2
    rw [convertBase10ToByteArray, jsBigIntOfString_digits s hne hall]
    show Except.ok (parseHexPairs (padEvenHex (jsBigIntToHexChars ((digitsVal s : Nat) : Int))))
        = Except.ok (natToBEBytes (digitsVal s))
    rw [show jsBigIntToHexChars ((digitsVal s : Nat) : Int) = natHexChars (digitsVal s) from by
      rw [jsBigIntToHexChars, if_neg (by omega)]
      rfl]
    rw [pipeline_eq_beBytes]

/-- C7 witness: the two spec instances, derived from the general theorem. -/
theorem convertBase10_spec_witness :
    isNonNegIntegerLiteral ['2', '5', '5'] = true ∧
      convertBase10ToByteArray ['2', '5', '5'] = Except.ok [255] ∧
      isNonNegIntegerLiteral ['2', '5', '6'] = true ∧
      convertBase10ToByteArray ['2', '5', '6'] = Except.ok [1, 0] := by
  have h255 := (convertBase10_spec ['2', '5', '5']).2 (by decide)
  have h256 := (convertBase10_spec ['2', '5', '6']).2 (by decide)
  refine ⟨by decide, ?_, by decide, ?_⟩
  · rw [h255]
    decide
  · rw [h256]
    decide

/-- C7 counterexample: the empty string is not a valid non-negative
integer literal, yet `convertBase10ToByteArray` succeeds on it (BigInt
maps it to 0), returning the byte `[0x00]` instead of failing. -/
theorem convertBase10_accepts_empty_string_cex :
    isNonNegIntegerLiteral [] = false ∧
      convertBase10ToByteArray [] = Except.ok [0] ∧
      isOkB (convertBase10ToByteArray []) = true := by
  decide

end SecureQRDecoder
